import Mathlib

/-!
Verification of the mkdocs smoke-test tool (`src/main.rs`) against its
natural-language specification.  The document scanner, the compile-run job
pipeline and the orchestrator's aggregation are shallowly embedded as
executable Lean functions; machine strings become `String`, byte buffers
become `List Nat`, fallible or panicking steps become `Option`/`Except`.
-/

set_option maxHeartbeats 1000000

namespace SmokeTest

/-- Rust `str::starts_with`, expressed on the underlying character lists. -/
def startsWithStr (s p : String) : Bool :=
  p.data.isPrefixOf s.data

/-- Count of leading hash marks of a line.  In the source the heading slot is
computed as `line.len() - title.len() - 1` on byte lengths; since each stripped
character is the one-byte character given to `trim_start_matches`, that byte
difference equals this count. -/
def hashCount (line : String) : Nat :=
  (line.data.takeWhile (fun ch => ch == '#')).length

/-- The line with its leading hash marks removed (Rust `trim_start_matches('#')`). -/
def hashTitle (line : String) : String :=
  String.mk (line.data.dropWhile (fun ch => ch == '#'))

/-- Rust `str::trim_matches(' ')`: drop spaces from both ends. -/
def trimSpaces (s : String) : String :=
  String.mk (((s.data.dropWhile (fun ch => ch == ' ')).reverse.dropWhile
      (fun ch => ch == ' ')).reverse)

/-- Join a list of strings with a separator, as `Vec::join`. -/
def joinWith (sep : String) : List String → String
  | [] => ""
  | [x] => x
  | x :: y :: xs => x ++ sep ++ joinWith sep (y :: xs)

/-- `buffer.join("\n")` from the source. -/
def joinLines (lines : List String) : String :=
  joinWith "\n" lines

/-- The code-fence marker. -/
def fenceMark : String := "```"

/-- The tag an info string must start with for the fence to count as the
target language: `format!("\x60\x60\x60{}", language)`. -/
def langCode (language : String) : String :=
  fenceMark ++ language

/-- The four-slot heading array `[String; 4]` of the scanner. -/
structure Header4 where
  h0 : String
  h1 : String
  h2 : String
  h3 : String
deriving DecidableEq

/-- Read slot `i` of the heading array (total accessor for stating lemmas;
the source never reads out of bounds). -/
def Header4.get (h : Header4) : Nat → String
  | 0 => h.h0
  | 1 => h.h1
  | 2 => h.h2
  | 3 => h.h3
  | _ + 4 => ""

/-- `header[i] = v`.  An index `i ≥ 4` is an out-of-bounds write, which
panics in the source; that is modelled by `none`. -/
def Header4.setAt (h : Header4) (i : Nat) (v : String) : Option Header4 :=
  match i with
  | 0 => some { h with h0 := v }
  | 1 => some { h with h1 := v }
  | 2 => some { h with h2 := v }
  | 3 => some { h with h3 := v }
  | _ + 4 => none

/-- One extracted code sample.  The source's `end` field is named `stop`
here because `end` is a reserved word; `header` keeps the list whose Rust
`Debug` rendering (`format!("\x7b:?\x7d", v)`) the source stores — that
rendering is determined by the list. -/
structure TestCase where
  path : String
  header : List String
  start : Nat
  stop : Nat
  code : String
deriving DecidableEq

/-- The heading context stored in an emitted test case: non-empty slots,
in slot order, each trimmed of spaces (filter first, then trim, as in the
source). -/
def formatHeader (h : Header4) : List String :=
  ([h.h0, h.h1, h.h2, h.h3].filter (fun x => !x.data.isEmpty)).map trimSpaces

/-- The mutable locals of `read_the_docs`, as one scanner state. -/
structure ScanState where
  header : Header4
  codes : List TestCase
  buffer : List String
  line_start : Nat
  in_code_block : Bool
  in_test_code_block : Bool
  is_specified_lang : Bool
deriving DecidableEq

/-- The scanner state at the top of `read_the_docs`. -/
def initState : ScanState :=
  ⟨⟨"", "", "", ""⟩, [], [], 0, false, false, false⟩

/-- The test case pushed when a tagged, collecting fence is closed at line
`num`. -/
def mkCase (path : String) (s : ScanState) (num : Nat) : TestCase :=
  ⟨path, formatHeader s.header, s.line_start, num, joinLines s.buffer⟩

/-- One iteration of the scanner loop of `read_the_docs` on line `num`.
The two guarded statements of the source's non-fence branch (`heading
update when not in a code block` and `fence-interior handling when in a
code block`) have complementary guards, so they appear here as one
if-then-else.  `none` models the out-of-bounds panic of the heading
write. -/
def step (language dogear path : String) (num : Nat) (s : ScanState) (line : String) :
    Option ScanState :=
  if startsWithStr line fenceMark then
    if s.in_code_block then
      let s1 := if s.in_test_code_block then
          { s with codes := s.codes ++ [mkCase path s num], buffer := [] }
        else s
      some { s1 with is_specified_lang := false, in_test_code_block := false,
                     in_code_block := false }
    else
      some { s with is_specified_lang := startsWithStr line (langCode language),
                    line_start := num, in_code_block := true }
  else if s.in_code_block then
    if s.in_test_code_block then
      some { s with buffer := s.buffer ++ [line] }
    else
      some { s with in_test_code_block := s.is_specified_lang && (line == dogear) }
  else if startsWithStr line "#" then
    match s.header.setAt (hashCount line - 1) (hashTitle line) with
    | some h => some { s with header := h }
    | none => none
  else
    some s

/-- The scanner loop from line number `num` in state `s`. -/
def scanLines (language dogear path : String) : Nat → ScanState → List String → Option ScanState
  | _, s, [] => some s
  | num, s, l :: ls =>
    match step language dogear path num s l with
    | some s1 => scanLines language dogear path (num + 1) s1 ls
    | none => none

/-- `read_the_docs` over an already-read line sequence (the file read and
per-line I/O results are the caller's concern); `none` models a panic of
the scanner itself. -/
def read_the_docs (lines : List String) (language dogear path : String) :
    Option (List TestCase) :=
  (scanLines language dogear path 0 initState lines).map ScanState.codes

/-- The lines of a fence interior strictly after the first line equal to the
sentinel, or `none` when no line matches it. -/
def afterSentinel (dogear : String) : List String → Option (List String)
  | [] => none
  | l :: ls => if l = dogear then some ls else afterSentinel dogear ls

/-! ## Decimal rendering of counters

The source formats the per-document counter with `Display` for `usize`,
i.e. as plain decimal digits.  The rendering is given a fuel-based form
(as in the standard library) so that it evaluates by kernel reduction. -/

/-- The character of one decimal digit. -/
def decDigit (d : Nat) : Char := Char.ofNat (48 + d)

/-- Accumulating decimal printer: prepends the digits of `n` (for any fuel
of at least the digit count) to `acc`. -/
def natStrCore : Nat → Nat → List Char → List Char
  | 0, _, acc => acc
  | fuel + 1, n, acc =>
    let acc1 := decDigit (n % 10) :: acc
    if n < 10 then acc1 else natStrCore fuel (n / 10) acc1

/-- Decimal rendering of a natural number. -/
def natStr (n : Nat) : String := String.mk (natStrCore (n + 1) n [])

/-! ## Path file stems

`Path::file_stem` of the compiler identifier: the last `/`-component of the
path, without its final extension (a lone leading dot does not start an
extension). -/

/-- Split a character list on a separator character, keeping empty groups. -/
def splitOnChar (sep : Char) : List Char → List (List Char)
  | [] => [[]]
  | c :: cs =>
    match splitOnChar sep cs with
    | g :: gs => if c == sep then [] :: g :: gs else (c :: g) :: gs
    | [] => [[c]]

/-- Characters before the last dot of a name already known to contain a
dot past its first character. -/
def takeBeforeLastDot : List Char → List Char
  | [] => []
  | c :: cs =>
    if cs.contains '.' then c :: takeBeforeLastDot cs
    else if c == '.' then [] else c :: cs

/-- `Path::file_stem` (total model; the source unwraps the `None` of a
degenerate path such as `""` or `"/.."`, which never names a compiler). -/
def fileStem (p : String) : String :=
  match (splitOnChar '/' p.data).getLastD [] with
  | [] => ""
  | c :: cs =>
    if cs.contains '.' then String.mk (takeBeforeLastDot (c :: cs))
    else String.mk (c :: cs)

/-- The executable artifact name built in `run_tests`:
`format!("\x7b\x7d-\x7b\x7d.out", counter, file_stem(compiler))`.  The
scoped workspace directory prefixing it is an external temp path and is
identical for all jobs, so distinctness of full paths is distinctness of
these names. -/
def artifact_name (counter : Nat) (compiler : String) : String :=
  natStr counter ++ "-" ++ fileStem compiler ++ ".out"

/-! ## UTF-8 decoding of captured standard-error bytes

`String::from_utf8` of the captured stderr; `none` on any byte sequence
that is not valid UTF-8 (where the source's `unwrap` panics). -/

/-- A UTF-8 continuation byte. -/
def contByte (b : Nat) : Bool := 0x80 ≤ b && b ≤ 0xBF

/-- Decode a UTF-8 byte sequence to its characters, rejecting overlong
forms, surrogates and out-of-range scalars as `String::from_utf8` does. -/
def utf8Decode : List Nat → Option (List Char)
  | [] => some []
  | b :: bs =>
    if b ≤ 0x7F then
      match utf8Decode bs with
      | some cs => some (Char.ofNat b :: cs)
      | none => none
    else if 0xC2 ≤ b && b ≤ 0xDF then
      match bs with
      | b1 :: bs1 =>
        if contByte b1 then
          match utf8Decode bs1 with
          | some cs => some (Char.ofNat ((b - 0xC0) * 0x40 + (b1 - 0x80)) :: cs)
          | none => none
        else none
      | [] => none
    else if 0xE0 ≤ b && b ≤ 0xEF then
      match bs with
      | b1 :: b2 :: bs2 =>
        if ((if b = 0xE0 then 0xA0 else 0x80) ≤ b1 &&
            b1 ≤ (if b = 0xED then 0x9F else 0xBF)) && contByte b2 then
          match utf8Decode bs2 with
          | some cs =>
            some (Char.ofNat ((b - 0xE0) * 0x1000 + (b1 - 0x80) * 0x40 + (b2 - 0x80)) :: cs)
          | none => none
        else none
      | _ => none
    else if 0xF0 ≤ b && b ≤ 0xF4 then
      match bs with
      | b1 :: b2 :: b3 :: bs3 =>
        if ((if b = 0xF0 then 0x90 else 0x80) ≤ b1 &&
            b1 ≤ (if b = 0xF4 then 0x8F else 0xBF)) && (contByte b2 && contByte b3) then
          match utf8Decode bs3 with
          | some cs =>
            some (Char.ofNat ((b - 0xF0) * 0x40000 + (b1 - 0x80) * 0x1000 +
              (b2 - 0x80) * 0x40 + (b3 - 0x80)) :: cs)
          | none => none
        else none
      | _ => none
    else none

/-- `String::from_utf8(bytes)`, with `none` for the `Err` case. -/
def stringFromUtf8 (bs : List Nat) : Option String :=
  (utf8Decode bs).map String.mk

/-! ## The compile-run job -/

/-- The failure report of one job (`struct Report`): source path, the
`[start, end]` line range, the compiler identifier and the diagnostic. -/
structure Report where
  filename : String
  line : Nat × Nat
  compiler : String
  info : String
deriving DecidableEq

/-- `Report::from(case, compiler)`. -/
def Report.ofCase (tc : TestCase) (compiler : String) : Report :=
  ⟨tc.path, (tc.start, tc.stop), compiler, ""⟩

/-- `Report::with_info`. -/
def Report.with_info (r : Report) (info : String) : Report :=
  { r with info := info }

/-- What one awaited child process produced: its exit status and captured
standard-error bytes. -/
structure ProcOutput where
  success : Bool
  stderr : List Nat
deriving DecidableEq

/-- Result of trying to spawn and await one child process: either the
spawn itself failed with an I/O error message, or the process ran to
completion. -/
inductive Spawned where
  | spawnErr (msg : String)
  | completed (out : ProcOutput)
deriving DecidableEq

/-- The process environment one job observes: whether the piped `echo`
could be spawned, and the results of the compile and run steps. -/
structure JobEnv where
  echoOk : Bool
  compile : Spawned
  run : Spawned
deriving DecidableEq

/-- Rust `TestResult = Result<String, Report>`. -/
abbrev TestResult := Except Report String

/-- `Duration::subsec_millis` of an elapsed time in nanoseconds: the
millisecond count of the sub-second part only. -/
def subsecMillis (elapsedNanos : Nat) : Nat :=
  elapsedNanos % 1000000000 / 1000000

/-- Rendering of the heading-context list inside the success message. -/
def renderHeader (hs : List String) : String :=
  "[" ++ joinWith ", " hs ++ "]"

/-- The success line printed for a passing job. -/
def passedMessage (tc : TestCase) (elapsedNanos : Nat) : String :=
  "Passed: " ++ tc.path ++ " (" ++ renderHeader tc.header ++ " [line: " ++
    natStr tc.start ++ "-" ++ natStr tc.stop ++ "], time: " ++
    natStr (subsecMillis elapsedNanos) ++ " ms)"

/-- One (test case, compiler) job: the body of the future built in
`run_tests`.  The outer `Option` models panics (`expect` on the piped echo,
`unwrap` on UTF-8 decoding of captured stderr); the `Except String` layer is
the `anyhow::Result` whose `Err` a spawn failure produces through
`with_context`; the inner `TestResult` is the job's outcome.  `elapsedNanos`
is the whole-job wall time observed when the success message is built. -/
def run_one (tc : TestCase) (counter : Nat) (compiler : String) (env : JobEnv)
    (elapsedNanos : Nat) : Option (Except String TestResult) :=
  if !env.echoOk then none
  else
    match env.compile with
    | .spawnErr m => some (.error ("failed to execute compile process: " ++ m))
    | .completed comp =>
      if comp.success then
        match env.run with
        | .spawnErr m =>
          some (.error ("failed to execute test " ++ artifact_name counter compiler ++
            ": " ++ m))
        | .completed t =>
          if t.success then some (.ok (.ok (passedMessage tc elapsedNanos)))
          else
            match stringFromUtf8 t.stderr with
            | some info => some (.ok (.error ((Report.ofCase tc compiler).with_info info)))
            | none => none
      else
        match stringFromUtf8 comp.stderr with
        | some info => some (.ok (.error ((Report.ofCase tc compiler).with_info info)))
        | none => none

/-! ## The orchestrator -/

/-- The body of the per-test-case task spawned in `main`: await each
compiler's job in order, print successes, collect failure reports, and
propagate (`?`) any job-level `anyhow` error, abandoning the remaining
sibling jobs.  Returns `some reports` when any failure was collected,
`none` when all jobs passed (`as_some` in the source).  Each list entry
pairs a compiler with the environment and elapsed time its job observes. -/
def runJobs (tc : TestCase) (counter : Nat) :
    List (String × JobEnv × Nat) → List Report → Option (Except String (Option (List Report)))
  | [], reports => some (.ok (if reports.isEmpty then none else some reports))
  | (compiler, env, elapsed) :: rest, reports =>
    match run_one tc counter compiler env elapsed with
    | none => none
    | some (.error e) => some (.error e)
    | some (.ok (.error r)) => runJobs tc counter rest (reports ++ [r])
    | some (.ok (.ok _msg)) => runJobs tc counter rest reports

/-- What one awaited task contributes in `main`: `none` is a panicked task
(a `JoinError`), `some (.error e)` a propagated job error, `some (.ok x)`
the task's optional failure list. -/
abbrev TaskResult := Option (Except String (Option (List Report)))

/-- The aggregation loop of `main`: `job.await??` on each task in order,
extending the run-wide report list with each task's failures. -/
def collectTasks : List TaskResult → List Report → Option (Except String (List Report))
  | [], acc => some (.ok acc)
  | t :: ts, acc =>
    match t with
    | none => none
    | some (.error e) => some (.error e)
    | some (.ok none) => collectTasks ts acc
    | some (.ok (some rs)) => collectTasks ts (acc ++ rs)

/-- The observable end of the process. -/
inductive ExitBehavior where
  | panicked
  | errored (msg : String)
  | failed (reports : List Report)
  | passed
deriving DecidableEq

/-- The verdict of `main` over the run's tasks: a propagated panic or error
terminates the run; otherwise a non-empty aggregate report is emitted with a
non-zero exit (`bail!`), and an empty one prints the all-passed message and
exits with the success code. -/
def main_run (tasks : List TaskResult) : ExitBehavior :=
  match collectTasks tasks [] with
  | none => .panicked
  | some (.error e) => .errored e
  | some (.ok reports) => if reports.isEmpty then .passed else .failed reports

/-! ## Scanner lemmas -/

theorem scanLines_append (language dogear path : String) (xs ys : List String) (n : Nat)
    (s : ScanState) :
    scanLines language dogear path n s (xs ++ ys) =
      match scanLines language dogear path n s xs with
      | some s1 => scanLines language dogear path (n + xs.length) s1 ys
      | none => none := by
  induction xs generalizing n s with
  | nil => simp [scanLines]
  | cons x xs ih =>
    show (match step language dogear path n s x with
        | some s1 => scanLines language dogear path (n + 1) s1 (xs ++ ys)
        | none => none) =
      match (match step language dogear path n s x with
          | some s1 => scanLines language dogear path (n + 1) s1 xs
          | none => none) with
        | some s1 => scanLines language dogear path (n + (xs.length + 1)) s1 ys
        | none => none
    cases step language dogear path n s x with
    | none => rfl
    | some s1 =>
      show scanLines language dogear path (n + 1) s1 (xs ++ ys) =
        match scanLines language dogear path (n + 1) s1 xs with
        | some s2 => scanLines language dogear path (n + (xs.length + 1)) s2 ys
        | none => none
      rw [ih]
      have harith : n + 1 + xs.length = n + (xs.length + 1) := by omega
      rw [harith]

/-- States the scanner can actually be in: outside a fence it is not
collecting, and while not collecting the body buffer is empty. -/
def ScanInv (s : ScanState) : Prop :=
  (s.in_test_code_block = false → s.buffer = []) ∧
  (s.in_code_block = false → s.in_test_code_block = false)

theorem scanInv_init : ScanInv initState := by
  exact ⟨fun _ => rfl, fun _ => rfl⟩

theorem scanInv_step (language dogear path line : String) (num : Nat) (s s' : ScanState)
    (hs : ScanInv s) (h : step language dogear path num s line = some s') : ScanInv s' := by
  obtain ⟨a, b, c, d, e, f, g⟩ := s
  have hc : f = false → c = [] := hs.1
  have hfe : e = false → f = false := hs.2
  cases hf : startsWithStr line fenceMark with
  | true =>
    cases e with
    | true =>
      cases f with
      | true =>
        simp only [step, hf, if_true, Option.some.injEq] at h
        subst h
        exact ⟨fun _ => rfl, fun _ => rfl⟩
      | false =>
        simp only [step, hf, if_true, Bool.false_eq_true, if_false,
          Option.some.injEq] at h
        subst h
        exact ⟨fun _ => hc rfl, fun _ => rfl⟩
    | false =>
      simp only [step, hf, if_true, Bool.false_eq_true, if_false,
        Option.some.injEq] at h
      subst h
      exact ⟨fun hx => hc hx, fun hx => Bool.noConfusion hx⟩
  | false =>
    cases e with
    | true =>
      cases f with
      | true =>
        simp only [step, hf, Bool.false_eq_true, if_false, if_true,
          Option.some.injEq] at h
        subst h
        exact ⟨fun hx => Bool.noConfusion hx, fun hx => Bool.noConfusion hx⟩
      | false =>
        simp only [step, hf, Bool.false_eq_true, if_false, if_true,
          Option.some.injEq] at h
        subst h
        exact ⟨fun _ => hc rfl, fun hx => Bool.noConfusion hx⟩
    | false =>
      cases hh : startsWithStr line "#" with
      | true =>
        simp only [step, hf, hh, Bool.false_eq_true, if_false, if_true] at h
        cases hset : Header4.setAt a (hashCount line - 1) (hashTitle line) with
        | none => rw [hset] at h; exact absurd h (by simp)
        | some hd =>
          rw [hset] at h
          simp only [Option.some.injEq] at h
          subst h
          exact ⟨fun hx => hc hx, fun hx => hfe hx⟩
      | false =>
        simp only [step, hf, hh, Bool.false_eq_true, if_false,
          Option.some.injEq] at h
        subst h
        exact ⟨fun hx => hc hx, fun hx => hfe hx⟩

theorem scanInv_scanLines (language dogear path : String) (lines : List String) (n : Nat)
    (s s' : ScanState) (hs : ScanInv s)
    (h : scanLines language dogear path n s lines = some s') : ScanInv s' := by
  induction lines generalizing n s with
  | nil =>
    simp only [scanLines, Option.some.injEq] at h
    subst h; exact hs
  | cons l ls ih =>
    simp only [scanLines] at h
    cases hx : step language dogear path n s l with
    | none => rw [hx] at h; exact absurd h (by simp)
    | some s1 =>
      rw [hx] at h
      exact ih (n + 1) s1 (scanInv_step language dogear path l n s s1 hs hx) h

theorem scan_collect (language dogear path : String) (interior : List String) (n : Nat)
    (a : Header4) (b : List TestCase) (c : List String) (d : Nat) (g : Bool)
    (hint : ∀ l ∈ interior, startsWithStr l fenceMark = false) :
    scanLines language dogear path n ⟨a, b, c, d, true, true, g⟩ interior =
      some ⟨a, b, c ++ interior, d, true, true, g⟩ := by
  induction interior generalizing n c with
  | nil => simp [scanLines]
  | cons l ls ih =>
    have hl : startsWithStr l fenceMark = false := hint l (List.mem_cons_self l ls)
    simp only [scanLines, step, hl, Bool.false_eq_true, if_false, if_true]
    exact (ih (n + 1) (c ++ [l]) (fun l' hl' => hint l' (List.mem_cons_of_mem l hl'))).trans
      (by simp)

theorem scan_wait_untagged (language dogear path : String) (interior : List String) (n : Nat)
    (a : Header4) (b : List TestCase) (c : List String) (d : Nat)
    (hint : ∀ l ∈ interior, startsWithStr l fenceMark = false) :
    scanLines language dogear path n ⟨a, b, c, d, true, false, false⟩ interior =
      some ⟨a, b, c, d, true, false, false⟩ := by
  induction interior generalizing n with
  | nil => simp [scanLines]
  | cons l ls ih =>
    have hl : startsWithStr l fenceMark = false := hint l (List.mem_cons_self l ls)
    simp only [scanLines, step, hl, Bool.false_eq_true, if_false, if_true, Bool.false_and]
    exact ih (n + 1) (fun l' hl' => hint l' (List.mem_cons_of_mem l hl'))

theorem scan_wait_tagged (language dogear path : String) (interior : List String) (n : Nat)
    (a : Header4) (b : List TestCase) (c : List String) (d : Nat)
    (hint : ∀ l ∈ interior, startsWithStr l fenceMark = false) :
    scanLines language dogear path n ⟨a, b, c, d, true, false, true⟩ interior =
      some (match afterSentinel dogear interior with
        | none => ⟨a, b, c, d, true, false, true⟩
        | some body => ⟨a, b, c ++ body, d, true, true, true⟩) := by
  induction interior generalizing n with
  | nil => simp [scanLines, afterSentinel]
  | cons l ls ih =>
    have hl : startsWithStr l fenceMark = false := hint l (List.mem_cons_self l ls)
    by_cases hld : l = dogear
    · subst hld
      simp only [scanLines, step, hl, Bool.false_eq_true, if_false, if_true, Bool.true_and,
        beq_self_eq_true, afterSentinel, if_pos rfl]
      exact scan_collect language l path ls (n + 1) a b c d true
        (fun l' hl' => hint l' (List.mem_cons_of_mem l hl'))
    · have hbeq : (l == dogear) = false := by
        simp [hld]
      simp only [scanLines, step, hl, Bool.false_eq_true, if_false, if_true, Bool.true_and,
        hbeq, afterSentinel, hld]
      exact ih (n + 1) (fun l' hl' => hint l' (List.mem_cons_of_mem l hl'))

/-- Scanning one whole fenced block from a reachable outside-fence state:
the scanner returns to the outside state, and the block contributes exactly
one test case — built from the body after the first sentinel line, the
fence-open line index and the fence-close line index — when the fence is
tagged with the target language and contains the sentinel, and nothing
otherwise. -/
theorem scan_fence_block (language dogear path : String) (n : Nat)
    (a : Header4) (b : List TestCase) (d : Nat) (g : Bool)
    (openL closeL : String) (interior : List String)
    (hopen : startsWithStr openL fenceMark = true)
    (hclose : startsWithStr closeL fenceMark = true)
    (hint : ∀ l ∈ interior, startsWithStr l fenceMark = false) :
    scanLines language dogear path n ⟨a, b, [], d, false, false, g⟩
        (openL :: (interior ++ [closeL])) =
      some ⟨a, b ++
        (match (if startsWithStr openL (langCode language) then
            afterSentinel dogear interior else none) with
          | some body =>
            [⟨path, formatHeader a, n, n + (interior.length + 1), joinLines body⟩]
          | none => []), [], n, false, false, false⟩ := by
  show (match step language dogear path n ⟨a, b, [], d, false, false, g⟩ openL with
      | some s1 => scanLines language dogear path (n + 1) s1 (interior ++ [closeL])
      | none => none) = _
  simp only [step, hopen, if_true, Bool.false_eq_true, if_false]
  rw [scanLines_append]
  cases htag : startsWithStr openL (langCode language) with
  | true =>
    rw [scan_wait_tagged language dogear path interior (n + 1) a b [] n hint]
    cases hsent : afterSentinel dogear interior with
    | none =>
      simp only [scanLines, step, hclose, if_true, Bool.false_eq_true, if_false]
      simp
    | some body =>
      simp only [scanLines, step, hclose, if_true, Bool.false_eq_true, if_false]
      have harith : n + 1 + interior.length = n + (interior.length + 1) := by omega
      simp [mkCase, harith]
  | false =>
    rw [scan_wait_untagged language dogear path interior (n + 1) a b [] n hint]
    simp only [scanLines, step, hclose, if_true, Bool.false_eq_true, if_false]
    simp

/-! ## Heading-context tracking -/

theorem Header4.get_setAt {hd hd' : Header4} {i : Nat} {v : String}
    (h : hd.setAt i v = some hd') (L : Nat) :
    hd'.get L = if i == L then v else hd.get L := by
  match i, h with
  | 0, h =>
    injection h with h
    subst h
    match L with
    | 0 => rfl
    | 1 => rfl
    | 2 => rfl
    | 3 => rfl
    | m + 4 => rfl
  | 1, h =>
    injection h with h
    subst h
    match L with
    | 0 => rfl
    | 1 => rfl
    | 2 => rfl
    | 3 => rfl
    | m + 4 => rfl
  | 2, h =>
    injection h with h
    subst h
    match L with
    | 0 => rfl
    | 1 => rfl
    | 2 => rfl
    | 3 => rfl
    | m + 4 => rfl
  | 3, h =>
    injection h with h
    subst h
    match L with
    | 0 => rfl
    | 1 => rfl
    | 2 => rfl
    | 3 => rfl
    | m + 4 => rfl

/-- The specification's description of heading tracking, stated for one
level in isolation: the slot for level `L` holds the text of the most
recently seen heading of exactly that level, persists until overwritten by
another heading of the same level (headings of other levels leave it
alone), and ignores every line that lies inside a fence.  `level` is the
0-based slot index, i.e. the heading depth minus one. -/
def lastHeadingAt (level : Nat) (inFence : Bool) (acc : String) : List String → String
  | [] => acc
  | l :: ls =>
    if startsWithStr l fenceMark then lastHeadingAt level (!inFence) acc ls
    else if !inFence && startsWithStr l "#" && (hashCount l - 1 == level) then
      lastHeadingAt level inFence (hashTitle l) ls
    else lastHeadingAt level inFence acc ls

/-- Whatever lines a non-panicking scan consumes, each heading slot of the
resulting state reads back as the specification's single-level tracking
function applied to those lines. -/
theorem scan_header_trace (language dogear path : String) (lines : List String) (n : Nat)
    (s s' : ScanState) (h : scanLines language dogear path n s lines = some s') (L : Nat) :
    s'.header.get L = lastHeadingAt L s.in_code_block (s.header.get L) lines := by
  induction lines generalizing n s with
  | nil =>
    simp only [scanLines, Option.some.injEq] at h
    subst h
    simp [lastHeadingAt]
  | cons l ls ih =>
    simp only [scanLines] at h
    cases hx : step language dogear path n s l with
    | none => rw [hx] at h; exact absurd h (by simp)
    | some s1 =>
      rw [hx] at h
      rw [ih (n + 1) s1 h]
      obtain ⟨a, b, c, d, e, f, g⟩ := s
      cases hf : startsWithStr l fenceMark with
      | true =>
        cases e with
        | true =>
          cases f with
          | true =>
            simp only [step, hf, if_true, Option.some.injEq] at hx
            subst hx
            simp [lastHeadingAt, hf]
          | false =>
            simp only [step, hf, if_true, Bool.false_eq_true, if_false,
              Option.some.injEq] at hx
            subst hx
            simp [lastHeadingAt, hf]
        | false =>
          simp only [step, hf, if_true, Bool.false_eq_true, if_false,
            Option.some.injEq] at hx
          subst hx
          simp [lastHeadingAt, hf]
      | false =>
        cases e with
        | true =>
          cases f with
          | true =>
            simp only [step, hf, Bool.false_eq_true, if_false, if_true,
              Option.some.injEq] at hx
            subst hx
            simp [lastHeadingAt, hf]
          | false =>
            simp only [step, hf, Bool.false_eq_true, if_false, if_true,
              Option.some.injEq] at hx
            subst hx
            simp [lastHeadingAt, hf]
        | false =>
          cases hh : startsWithStr l "#" with
          | true =>
            simp only [step, hf, hh, Bool.false_eq_true, if_false, if_true] at hx
            cases hset : Header4.setAt a (hashCount l - 1) (hashTitle l) with
            | none => rw [hset] at hx; exact absurd hx (by simp)
            | some hd =>
              rw [hset] at hx
              simp only [Option.some.injEq] at hx
              subst hx
              have hget := Header4.get_setAt hset L
              cases hiL : ((hashCount l - 1 : Nat) == L) with
              | true =>
                simp only [hiL, if_true] at hget
                simp [lastHeadingAt, hf, hh, hiL, hget]
              | false =>
                simp only [hiL, Bool.false_eq_true, if_false] at hget
                simp [lastHeadingAt, hf, hh, hiL, hget]
          | false =>
            simp only [step, hf, hh, Bool.false_eq_true, if_false,
              Option.some.injEq] at hx
            subst hx
            simp [lastHeadingAt, hf, hh]

/-! ## Properties of the decimal rendering -/

/-- The decimal digits of a number, least significant first (reference
form of `natStrCore` for proofs). -/
def digitsRev (n : Nat) : List Nat :=
  if n < 10 then [n] else n % 10 :: digitsRev (n / 10)
termination_by n
decreasing_by exact Nat.div_lt_self (by omega) (by omega)

/-- Value of a least-significant-first digit list. -/
def undigitsRev : List Nat → Nat
  | [] => 0
  | d :: ds => d + 10 * undigitsRev ds

theorem natStrCore_eq (fuel n : Nat) (acc : List Char) (h : n < fuel) :
    natStrCore fuel n acc = (digitsRev n).reverse.map decDigit ++ acc := by
  induction fuel generalizing n acc with
  | zero => omega
  | succ fuel ih =>
    rw [natStrCore, digitsRev]
    by_cases hn : n < 10
    · simp [hn, Nat.mod_eq_of_lt hn]
    · have hdiv : n / 10 < n := Nat.div_lt_self (by omega) (by omega)
      simp only [hn, if_false]
      rw [ih (n / 10) _ (by omega)]
      simp [List.append_assoc]

theorem digitsRev_lt (n : Nat) : ∀ d ∈ digitsRev n, d < 10 := by
  induction n using Nat.strong_induction_on with
  | _ n ih =>
    rw [digitsRev]
    by_cases hn : n < 10
    · simp [hn]
    · have hdiv : n / 10 < n := Nat.div_lt_self (by omega) (by omega)
      simp only [hn, if_false]
      intro d hd
      rcases List.mem_cons.mp hd with h | h
      · subst h; exact Nat.mod_lt n (by omega)
      · exact ih (n / 10) hdiv d h

theorem undigitsRev_digitsRev (n : Nat) : undigitsRev (digitsRev n) = n := by
  induction n using Nat.strong_induction_on with
  | _ n ih =>
    rw [digitsRev]
    by_cases hn : n < 10
    · simp [hn, undigitsRev]
    · have hdiv : n / 10 < n := Nat.div_lt_self (by omega) (by omega)
      simp only [hn, if_false, undigitsRev]
      rw [ih (n / 10) hdiv]
      omega

theorem decDigit_inj : ∀ a < 10, ∀ b < 10, decDigit a = decDigit b → a = b := by
  decide

theorem decDigit_ne_dash : ∀ d < 10, decDigit d ≠ '-' := by
  decide

theorem map_decDigit_inj (xs ys : List Nat) (hx : ∀ d ∈ xs, d < 10)
    (hy : ∀ d ∈ ys, d < 10) (h : xs.map decDigit = ys.map decDigit) : xs = ys := by
  induction xs generalizing ys with
  | nil => cases ys with
    | nil => rfl
    | cons y ys => simp at h
  | cons x xs ih =>
    cases ys with
    | nil => simp at h
    | cons y ys =>
      simp only [List.map_cons, List.cons.injEq] at h
      have hxy : x = y :=
        decDigit_inj x (hx x (List.mem_cons_self x xs)) y (hy y (List.mem_cons_self y ys)) h.1
      have := ih ys (fun d hd => hx d (List.mem_cons_of_mem x hd))
        (fun d hd => hy d (List.mem_cons_of_mem y hd)) h.2
      rw [hxy, this]

theorem natStr_data (n : Nat) : (natStr n).data = (digitsRev n).reverse.map decDigit := by
  show (String.mk (natStrCore (n + 1) n [])).data = _
  rw [natStrCore_eq (n + 1) n [] (by omega)]
  simp

theorem natStr_inj (m n : Nat) (h : natStr m = natStr n) : m = n := by
  have hd : (natStr m).data = (natStr n).data := congrArg String.data h
  rw [natStr_data, natStr_data] at hd
  have hrev : (digitsRev m).reverse = (digitsRev n).reverse :=
    map_decDigit_inj _ _ (fun d hd' => digitsRev_lt m d (List.mem_reverse.mp hd'))
      (fun d hd' => digitsRev_lt n d (List.mem_reverse.mp hd')) hd
  have hdig : digitsRev m = digitsRev n := List.reverse_injective hrev
  calc m = undigitsRev (digitsRev m) := (undigitsRev_digitsRev m).symm
    _ = undigitsRev (digitsRev n) := by rw [hdig]
    _ = n := undigitsRev_digitsRev n

theorem natStr_no_dash (n : Nat) : ∀ ch ∈ (natStr n).data, ch ≠ '-' := by
  rw [natStr_data]
  intro ch hch
  rcases List.mem_map.mp hch with ⟨d, hd, hdc⟩
  subst hdc
  exact decDigit_ne_dash d (digitsRev_lt n d (List.mem_reverse.mp hd))

/-- Splitting a character string at a separator absent from both prefixes
is unambiguous. -/
theorem append_dash_inj (as : List Char) :
    ∀ (bs xs ys : List Char), (∀ ch ∈ as, ch ≠ '-') → (∀ ch ∈ bs, ch ≠ '-') →
      as ++ '-' :: xs = bs ++ '-' :: ys → as = bs ∧ xs = ys := by
  induction as with
  | nil =>
    intro bs xs ys _ hbs h
    cases bs with
    | nil => simpa using h
    | cons b bs =>
      simp only [List.nil_append, List.cons_append, List.cons.injEq] at h
      exact absurd h.1.symm (hbs b (List.mem_cons_self b bs))
  | cons a as ih =>
    intro bs xs ys has hbs h
    cases bs with
    | nil =>
      simp only [List.cons_append, List.nil_append, List.cons.injEq] at h
      exact absurd h.1 (has a (List.mem_cons_self a as))
    | cons b bs =>
      simp only [List.cons_append, List.cons.injEq] at h
      obtain ⟨hab, hrest⟩ := h
      obtain ⟨h1, h2⟩ := ih bs xs ys (fun ch hch => has ch (List.mem_cons_of_mem a hch))
        (fun ch hch => hbs ch (List.mem_cons_of_mem b hch)) hrest
      exact ⟨by rw [hab, h1], h2⟩

theorem str_data_append (x y : String) : (x ++ y).data = x.data ++ y.data := by
  cases x
  cases y
  rfl

theorem str_ext {x y : String} (h : x.data = y.data) : x = y := by
  cases x
  cases y
  simp only at h
  rw [h]

/-! ## Document-level helpers -/

theorem scan_outside_shape (language dogear path : String) (pre : List String) (s : ScanState)
    (hpre : scanLines language dogear path 0 initState pre = some s)
    (hout : s.in_code_block = false) :
    s.buffer = [] ∧ s.in_test_code_block = false := by
  have hinv := scanInv_scanLines language dogear path pre 0 initState s scanInv_init hpre
  have h2 := hinv.2 hout
  exact ⟨hinv.1 h2, h2⟩

theorem Header4.eta (h : Header4) :
    (⟨h.get 0, h.get 1, h.get 2, h.get 3⟩ : Header4) = h := by
  cases h
  rfl

/-- Scanning a document prefix `pre` that leaves the scanner outside any
fence, followed by one closed fenced block: the scan succeeds, the state
returns outside, and the block appends exactly one test case — whose body
is the fence interior strictly after the first sentinel line, whose line
range is the fence delimiter pair, and whose heading context snapshots the
prefix — when the fence is tagged and contains the sentinel, and appends
nothing otherwise. -/
theorem scan_doc_fence (language dogear path : String) (pre interior : List String)
    (openL closeL : String) (s : ScanState)
    (hpre : scanLines language dogear path 0 initState pre = some s)
    (hout : s.in_code_block = false)
    (hopen : startsWithStr openL fenceMark = true)
    (hclose : startsWithStr closeL fenceMark = true)
    (hint : ∀ l ∈ interior, startsWithStr l fenceMark = false) :
    scanLines language dogear path 0 initState (pre ++ openL :: (interior ++ [closeL])) =
      some ⟨s.header, s.codes ++
          (match (if startsWithStr openL (langCode language) then
              afterSentinel dogear interior else none) with
            | some body =>
              [⟨path, formatHeader s.header, pre.length,
                pre.length + (interior.length + 1), joinLines body⟩]
            | none => []),
        [], pre.length, false, false, false⟩ := by
  obtain ⟨hbuf0, htest0⟩ := scan_outside_shape language dogear path pre s hpre hout
  obtain ⟨a, b, c, d, e, f, g⟩ := s
  have hc : c = [] := hbuf0
  have hf : f = false := htest0
  have he : e = false := hout
  subst hc hf he
  rw [scanLines_append, hpre]
  simp only [Nat.zero_add]
  have hfb := scan_fence_block language dogear path pre.length a b d g openL closeL
    interior hopen hclose hint
  exact hfb

/-- The failure list a task contributes in a run that completes normally. -/
def taskFailures : TaskResult → Option (List Report)
  | some (.ok (some rs)) => some rs
  | _ => none

theorem collectTasks_ok (tasks : List TaskResult) (acc reports : List Report)
    (h : collectTasks tasks acc = some (.ok reports)) :
    reports = acc ++ (tasks.filterMap taskFailures).flatten := by
  induction tasks generalizing acc with
  | nil =>
    simp only [collectTasks, Option.some.injEq, Except.ok.injEq] at h
    simp [h]
  | cons t ts ih =>
    cases t with
    | none => simp [collectTasks] at h
    | some r =>
      cases r with
      | error e => simp [collectTasks] at h
      | ok o =>
        cases o with
        | none =>
          simp only [collectTasks] at h
          rw [ih acc h]
          simp [taskFailures]
        | some rs =>
          simp only [collectTasks] at h
          rw [ih (acc ++ rs) h]
          simp [taskFailures, List.append_assoc]

/-! ## Claims about the scanner -/

/-- C1, counterexample: in a document whose fence opens at line 0 and whose
sentinel line is line 1, the emitted test case records start line 0 — the
fence-open line — not the sentinel line's index 1.  The claim that the
sentinel match overrides `start_line` is false: the source never reassigns
`line_start` at the sentinel match. -/
theorem start_line_counterexample :
    (read_the_docs ["```cpp", "DOG", "x", "```"] "cpp" "DOG" "docs/d.md").map
      (fun cs => cs.map TestCase.start) = some [0] ∧ (0 : Nat) ≠ 1 :=
  ⟨rfl, by decide⟩

/-- C1, amended: for every tagged fence containing the sentinel, the emitted
test case's start line is the index of the fence-opening line; the sentinel
match does not override it. -/
theorem start_line_is_fence_open (language dogear path : String) (pre interior : List String)
    (openL closeL : String) (s : ScanState) (body : List String)
    (hpre : scanLines language dogear path 0 initState pre = some s)
    (hout : s.in_code_block = false)
    (hopen : startsWithStr openL fenceMark = true)
    (hclose : startsWithStr closeL fenceMark = true)
    (hint : ∀ l ∈ interior, startsWithStr l fenceMark = false)
    (htag : startsWithStr openL (langCode language) = true)
    (hsent : afterSentinel dogear interior = some body) :
    ∃ s' tcOut, scanLines language dogear path 0 initState
        (pre ++ openL :: (interior ++ [closeL])) = some s' ∧
      s'.codes = s.codes ++ [tcOut] ∧ tcOut.start = pre.length := by
  have hdoc := scan_doc_fence language dogear path pre interior openL closeL s
    hpre hout hopen hclose hint
  have hdoc2 : scanLines language dogear path 0 initState
      (pre ++ openL :: (interior ++ [closeL])) =
      some ⟨s.header, s.codes ++ [⟨path, formatHeader s.header, pre.length,
        pre.length + (interior.length + 1), joinLines body⟩],
        [], pre.length, false, false, false⟩ := by
    rw [hdoc, if_pos htag, hsent]
  exact ⟨_, _, hdoc2, rfl, rfl⟩

theorem start_line_is_fence_open_witness :
    ∃ s' tcOut, scanLines "cpp" "DOG" "docs/d.md" 0 initState
        (["intro text"] ++ "```cpp" :: (["DOG", "x"] ++ ["```"])) = some s' ∧
      s'.codes = [tcOut] ∧ tcOut.start = 1 :=
  start_line_is_fence_open "cpp" "DOG" "docs/d.md" ["intro text"] ["DOG", "x"]
    "```cpp" "```" initState ["x"] rfl rfl rfl rfl (by decide) rfl rfl

/-- C3, code bug: the scanner is not total.  A line outside any fence that
begins with five hash marks makes the heading-slot index `5 - 1 = 4` and
the write to the 4-slot heading array is out of bounds — a panic, modelled
as `none` — while the same line with four hash marks is handled. -/
theorem five_hash_heading_panics :
    read_the_docs ["##### Deep"] "cpp" "DOG" "docs/d.md" = none ∧
    read_the_docs ["#### Deep"] "cpp" "DOG" "docs/d.md" = some [] :=
  ⟨rfl, rfl⟩

/-- C4: a closed fenced block contributes zero test cases when its info
string does not start with the target language tag or when no interior line
equals the sentinel, and otherwise exactly one test case, whose body is the
interior strictly after the first sentinel line — excluding that sentinel
line and both fence delimiter lines. -/
theorem fence_contribution (language dogear path : String) (pre interior : List String)
    (openL closeL : String) (s : ScanState)
    (hpre : scanLines language dogear path 0 initState pre = some s)
    (hout : s.in_code_block = false)
    (hopen : startsWithStr openL fenceMark = true)
    (hclose : startsWithStr closeL fenceMark = true)
    (hint : ∀ l ∈ interior, startsWithStr l fenceMark = false) :
    ∃ s', scanLines language dogear path 0 initState
        (pre ++ openL :: (interior ++ [closeL])) = some s' ∧
      s'.codes = s.codes ++
        (match (if startsWithStr openL (langCode language) then
            afterSentinel dogear interior else none) with
          | some body =>
            [⟨path, formatHeader s.header, pre.length,
              pre.length + (interior.length + 1), joinLines body⟩]
          | none => []) :=
  ⟨_, scan_doc_fence language dogear path pre interior openL closeL s
    hpre hout hopen hclose hint, rfl⟩

theorem fence_contribution_witness :
    ∃ s', scanLines "cpp" "DOG" "docs/d.md" 0 initState
        (["# T"] ++ "```cpp" :: (["a", "DOG", "b"] ++ ["```"])) = some s' ∧
      s'.codes = [] ++
        (match (if startsWithStr "```cpp" (langCode "cpp") then
            afterSentinel "DOG" ["a", "DOG", "b"] else none) with
          | some body =>
            [⟨"docs/d.md", formatHeader ⟨" T", "", "", ""⟩, 1, 1 + (3 + 1),
              joinLines body⟩]
          | none => []) :=
  fence_contribution "cpp" "DOG" "docs/d.md" ["# T"] ["a", "DOG", "b"] "```cpp" "```"
    ⟨⟨" T", "", "", ""⟩, [], [], 0, false, false, false⟩ rfl rfl rfl rfl (by decide)

/-- C7: the heading context recorded in an emitted test case is the
rendering of the four heading slots, where slot `L` holds the text of the
most recently seen heading of exactly level `L + 1` in the document prefix
before the fence — each level tracked independently (`lastHeadingAt`), so a
slot persists until overwritten by a heading of the same level and is not
reset by deeper or shallower headings, and heading lines inside any fence
are ignored. -/
theorem heading_context (language dogear path : String) (pre interior : List String)
    (openL closeL : String) (s : ScanState) (body : List String)
    (hpre : scanLines language dogear path 0 initState pre = some s)
    (hout : s.in_code_block = false)
    (hopen : startsWithStr openL fenceMark = true)
    (hclose : startsWithStr closeL fenceMark = true)
    (hint : ∀ l ∈ interior, startsWithStr l fenceMark = false)
    (htag : startsWithStr openL (langCode language) = true)
    (hsent : afterSentinel dogear interior = some body) :
    ∃ s' tcOut, scanLines language dogear path 0 initState
        (pre ++ openL :: (interior ++ [closeL])) = some s' ∧
      s'.codes = s.codes ++ [tcOut] ∧
      tcOut.header = formatHeader ⟨lastHeadingAt 0 false "" pre,
        lastHeadingAt 1 false "" pre, lastHeadingAt 2 false "" pre,
        lastHeadingAt 3 false "" pre⟩ := by
  have hdoc := scan_doc_fence language dogear path pre interior openL closeL s
    hpre hout hopen hclose hint
  have hdoc2 : scanLines language dogear path 0 initState
      (pre ++ openL :: (interior ++ [closeL])) =
      some ⟨s.header, s.codes ++ [⟨path, formatHeader s.header, pre.length,
        pre.length + (interior.length + 1), joinLines body⟩],
        [], pre.length, false, false, false⟩ := by
    rw [hdoc, if_pos htag, hsent]
  refine ⟨_, _, hdoc2, rfl, ?_⟩
  show formatHeader s.header = _
  have h0 : s.header.get 0 = lastHeadingAt 0 false "" pre :=
    scan_header_trace language dogear path pre 0 initState s hpre 0
  have h1 : s.header.get 1 = lastHeadingAt 1 false "" pre :=
    scan_header_trace language dogear path pre 0 initState s hpre 1
  have h2 : s.header.get 2 = lastHeadingAt 2 false "" pre :=
    scan_header_trace language dogear path pre 0 initState s hpre 2
  have h3 : s.header.get 3 = lastHeadingAt 3 false "" pre :=
    scan_header_trace language dogear path pre 0 initState s hpre 3
  rw [← h0, ← h1, ← h2, ← h3, Header4.eta]

theorem heading_context_witness :
    ∃ s' tcOut, scanLines "cpp" "DOG" "docs/d.md" 0 initState
        (["# A", "## B", "# C"] ++ "```cpp" :: (["DOG", "y"] ++ ["```"])) = some s' ∧
      s'.codes = [tcOut] ∧
      tcOut.header = formatHeader ⟨lastHeadingAt 0 false "" ["# A", "## B", "# C"],
        lastHeadingAt 1 false "" ["# A", "## B", "# C"],
        lastHeadingAt 2 false "" ["# A", "## B", "# C"],
        lastHeadingAt 3 false "" ["# A", "## B", "# C"]⟩ :=
  heading_context "cpp" "DOG" "docs/d.md" ["# A", "## B", "# C"] ["DOG", "y"]
    "```cpp" "```" ⟨⟨" C", " B", "", ""⟩, [], [], 0, false, false, false⟩ ["y"]
    rfl rfl rfl rfl (by decide) rfl rfl

/-! ## Claims about the job pipeline and the orchestrator -/

/-- C2, counterexample: a compiler spawn failure is not recovered into a
`Failure` outcome: the job resolves to a propagated error, and a run holding
that task next to a sibling task carrying a genuine failure report ends
`errored` — terminated by the propagated error before the final aggregate —
rather than `failed` with the aggregate report. -/
theorem spawn_failure_aborts_run :
    runJobs (⟨"docs/a.md", [], 2, 6, "int main()"⟩ : TestCase) 0
        [("g++", ⟨true, .spawnErr "No such file or directory", .completed ⟨true, []⟩⟩, 0)]
        [] =
      some (.error "failed to execute compile process: No such file or directory") ∧
    main_run [runJobs (⟨"docs/a.md", [], 2, 6, "int main()"⟩ : TestCase) 0
        [("g++", ⟨true, .spawnErr "No such file or directory", .completed ⟨true, []⟩⟩, 0)]
        [],
      some (.ok (some [⟨"docs/b.md", (1, 5), "g++", "boom"⟩]))] =
      .errored "failed to execute compile process: No such file or directory" :=
  ⟨rfl, rfl⟩

/-- C2, amended: a process-spawn failure of the compiler or of the produced
artifact is returned as a job-level error, not a `Failure` outcome: it
propagates out of the per-test-case task — abandoning that test case's
remaining sibling jobs — and terminates the whole run as `errored` before
the final aggregate report, regardless of the other tasks. -/
theorem spawn_failure_propagates (tc : TestCase) (counter : Nat) (compiler m : String)
    (env : JobEnv) (elapsed : Nat)
    (rest : List (String × JobEnv × Nat)) (acc : List Report) (tasks : List TaskResult)
    (hecho : env.echoOk = true)
    (hspawn : env.compile = .spawnErr m ∨
      (∃ comp, env.compile = .completed comp ∧ comp.success = true ∧
        env.run = .spawnErr m)) :
    ∃ e, run_one tc counter compiler env elapsed = some (.error e) ∧
      runJobs tc counter ((compiler, env, elapsed) :: rest) acc = some (.error e) ∧
      main_run (runJobs tc counter ((compiler, env, elapsed) :: rest) acc :: tasks) =
        .errored e := by
  have hrun : ∃ e, run_one tc counter compiler env elapsed = some (.error e) := by
    obtain ⟨eo, ec, er⟩ := env
    have heo : eo = true := hecho
    subst heo
    rcases hspawn with hce | ⟨comp, hce, hcs, hre⟩
    · have h1 : ec = .spawnErr m := hce
      subst h1
      exact ⟨_, rfl⟩
    · have h1 : ec = .completed comp := hce
      subst h1
      have h2 : er = .spawnErr m := hre
      subst h2
      have hcs2 : comp.success = true := hcs
      exact ⟨"failed to execute test " ++ artifact_name counter compiler ++ ": " ++ m,
        by simp [run_one, hcs2]⟩
  obtain ⟨e, he⟩ := hrun
  have hjobs : runJobs tc counter ((compiler, env, elapsed) :: rest) acc =
      some (.error e) := by
    simp only [runJobs]
    rw [he]
  have hmain : main_run (runJobs tc counter ((compiler, env, elapsed) :: rest) acc
      :: tasks) = .errored e := by
    unfold main_run
    simp only [collectTasks]
    rw [hjobs]
  exact ⟨e, he, hjobs, hmain⟩

theorem spawn_failure_propagates_witness :
    ∃ e, run_one (⟨"docs/a.md", [], 2, 6, "x"⟩ : TestCase) 0 "g++"
        ⟨true, .spawnErr "boom", .completed ⟨true, []⟩⟩ 0 = some (.error e) ∧
      runJobs (⟨"docs/a.md", [], 2, 6, "x"⟩ : TestCase) 0
        [("g++", ⟨true, .spawnErr "boom", .completed ⟨true, []⟩⟩, 0)] [] =
        some (.error e) ∧
      main_run [runJobs (⟨"docs/a.md", [], 2, 6, "x"⟩ : TestCase) 0
        [("g++", ⟨true, .spawnErr "boom", .completed ⟨true, []⟩⟩, 0)] []] =
        .errored e :=
  spawn_failure_propagates (⟨"docs/a.md", [], 2, 6, "x"⟩ : TestCase) 0 "g++" "boom"
    ⟨true, .spawnErr "boom", .completed ⟨true, []⟩⟩ 0 [] [] [] rfl (Or.inl rfl)

/-- C5: a compile that completes with non-zero exit yields a failure
report whose diagnostic is the compiler's decoded standard error, and the
job's result does not depend on the artifact step at all; a completed
compile with zero exit followed by a completed run with non-zero exit
yields a failure report carrying the artifact's decoded standard error;
and a success outcome occurs only when both processes completed with zero
exit. -/
theorem job_outcome_cases (tc : TestCase) (counter : Nat) (compiler : String)
    (env : JobEnv) (elapsed : Nat) (r : Spawned)
    (hecho : env.echoOk = true) :
    (∀ comp info, env.compile = .completed comp → comp.success = false →
      stringFromUtf8 comp.stderr = some info →
      run_one tc counter compiler env elapsed =
        some (.ok (.error ((Report.ofCase tc compiler).with_info info))) ∧
      run_one tc counter compiler ⟨env.echoOk, env.compile, r⟩ elapsed =
        run_one tc counter compiler env elapsed) ∧
    (∀ comp t info, env.compile = .completed comp → comp.success = true →
      env.run = .completed t → t.success = false →
      stringFromUtf8 t.stderr = some info →
      run_one tc counter compiler env elapsed =
        some (.ok (.error ((Report.ofCase tc compiler).with_info info)))) ∧
    (∀ msg, run_one tc counter compiler env elapsed = some (.ok (.ok msg)) →
      ∃ comp t, env.compile = .completed comp ∧ comp.success = true ∧
        env.run = .completed t ∧ t.success = true) := by
  obtain ⟨eo, ec, er⟩ := env
  have heo : eo = true := hecho
  subst heo
  refine ⟨?_, ?_, ?_⟩
  · intro comp info hcomp hfail hinfo
    have hec : ec = .completed comp := hcomp
    subst hec
    have hfail2 : comp.success = false := hfail
    have hinfo2 : stringFromUtf8 comp.stderr = some info := hinfo
    constructor
    · simp [run_one, hfail2, hinfo2]
    · simp [run_one, hfail2, hinfo2]
  · intro comp t info hcomp hsucc hrunc hfail hinfo
    have hec : ec = .completed comp := hcomp
    subst hec
    have her : er = .completed t := hrunc
    subst her
    have hsucc2 : comp.success = true := hsucc
    have hfail2 : t.success = false := hfail
    have hinfo2 : stringFromUtf8 t.stderr = some info := hinfo
    simp [run_one, hsucc2, hfail2, hinfo2]
  · intro msg h
    cases ec with
    | spawnErr mc => simp [run_one] at h
    | completed comp =>
      cases hcs : comp.success with
      | false =>
        simp only [run_one, Bool.not_true, Bool.false_eq_true, if_false, hcs] at h
        cases hu : stringFromUtf8 comp.stderr with
        | none => rw [hu] at h; simp at h
        | some info => rw [hu] at h; simp at h
      | true =>
        cases er with
        | spawnErr mr => simp [run_one, hcs] at h
        | completed t =>
          cases hts : t.success with
          | false =>
            simp only [run_one, Bool.not_true, Bool.false_eq_true, if_false,
              hcs, if_true, hts] at h
            cases hu : stringFromUtf8 t.stderr with
            | none => rw [hu] at h; simp at h
            | some info => rw [hu] at h; simp at h
          | true => exact ⟨comp, t, rfl, hcs, rfl, hts⟩

theorem job_outcome_cases_witness :
    run_one (⟨"docs/c.md", ["S"], 1, 4, "bad"⟩ : TestCase) 0 "g++"
        ⟨true, .completed ⟨false, [101, 114, 114]⟩, .completed ⟨true, []⟩⟩ 7 =
      some (.ok (.error ((Report.ofCase (⟨"docs/c.md", ["S"], 1, 4, "bad"⟩ : TestCase)
        "g++").with_info "err"))) :=
  ((job_outcome_cases (⟨"docs/c.md", ["S"], 1, 4, "bad"⟩ : TestCase) 0 "g++"
    ⟨true, .completed ⟨false, [101, 114, 114]⟩, .completed ⟨true, []⟩⟩ 7
    (.completed ⟨true, []⟩) rfl).1 ⟨false, [101, 114, 114]⟩ "err" rfl rfl rfl).1

/-- C6: once every task of the run has completed without a propagated
error or panic, the process exits with the success code exactly when the
aggregate report is empty; when it is non-empty the run ends `failed`
carrying the full aggregate, which is the concatenation of every task's
collected failure reports. -/
theorem exit_matches_aggregate (tasks : List TaskResult) (reports : List Report)
    (h : collectTasks tasks [] = some (.ok reports)) :
    (main_run tasks = .passed ↔ reports = []) ∧
    (reports ≠ [] → main_run tasks = .failed reports) ∧
    reports = (tasks.filterMap taskFailures).flatten := by
  have hflat := collectTasks_ok tasks [] reports h
  refine ⟨?_, ?_, by simpa using hflat⟩
  · unfold main_run
    rw [h]
    cases reports with
    | nil => simp
    | cons rr rs => simp
  · intro hne
    unfold main_run
    rw [h]
    cases reports with
    | nil => exact absurd rfl hne
    | cons rr rs => simp

theorem exit_matches_aggregate_witness :
    (main_run [some (.ok (some [(⟨"docs/w.md", (1, 3), "g++", "boom"⟩ : Report)]))] =
        .passed ↔ [(⟨"docs/w.md", (1, 3), "g++", "boom"⟩ : Report)] = []) ∧
    ([(⟨"docs/w.md", (1, 3), "g++", "boom"⟩ : Report)] ≠ [] →
      main_run [some (.ok (some [(⟨"docs/w.md", (1, 3), "g++", "boom"⟩ : Report)]))] =
        .failed [(⟨"docs/w.md", (1, 3), "g++", "boom"⟩ : Report)]) ∧
    [(⟨"docs/w.md", (1, 3), "g++", "boom"⟩ : Report)] =
      (([some (.ok (some [(⟨"docs/w.md", (1, 3), "g++", "boom"⟩ : Report)]))] :
        List TaskResult).filterMap taskFailures).flatten :=
  exit_matches_aggregate
    [some (.ok (some [(⟨"docs/w.md", (1, 3), "g++", "boom"⟩ : Report)]))]
    [(⟨"docs/w.md", (1, 3), "g++", "boom"⟩ : Report)] rfl

/-- C8, counterexample: two distinct configured compiler paths with the
same base name receive identical artifact names for the same test case, so
two jobs of one test case write the same workspace path. -/
theorem artifact_name_collision :
    artifact_name 0 "/usr/bin/g++" = artifact_name 0 "/usr/local/bin/g++" ∧
    ("/usr/bin/g++" : String) ≠ "/usr/local/bin/g++" :=
  ⟨rfl, by decide⟩

/-- C8, amended: two jobs receive the same artifact name exactly when their
per-document counters coincide and their compilers' path file stems
coincide.  Jobs of different test cases (distinct counters) therefore never
collide, but two different compiler paths sharing a base name do collide on
the same test case. -/
theorem artifact_name_collision_iff (c1 c2 : Nat) (p1 p2 : String) :
    artifact_name c1 p1 = artifact_name c2 p2 ↔
      (c1 = c2 ∧ fileStem p1 = fileStem p2) := by
  constructor
  · intro h
    have hd := congrArg String.data h
    simp only [artifact_name, str_data_append] at hd
    simp only [List.append_assoc, List.singleton_append] at hd
    obtain ⟨h1, h2⟩ := append_dash_inj (natStr c1).data (natStr c2).data _ _
      (natStr_no_dash c1) (natStr_no_dash c2) hd
    refine ⟨natStr_inj c1 c2 (str_ext h1), ?_⟩
    have hlen : ((fileStem p1).data).length = ((fileStem p2).data).length := by
      have hll := congrArg List.length h2
      simp only [List.append_eq, List.length_append] at hll
      omega
    obtain ⟨hs, _⟩ := List.append_inj h2 hlen
    exact str_ext hs
  · rintro ⟨h1, h2⟩
    unfold artifact_name
    rw [h1, h2]

/-- C9, code bug: a successful job whose whole-job wall time is 1.5 seconds
reports 500 ms.  The success message uses `subsec_millis`, the millisecond
count of the sub-second part only, so whole seconds of the end-to-end
elapsed time are dropped instead of being reported in whole milliseconds
(which would be 1500). -/
theorem elapsed_reports_subsecond_only :
    run_one (⟨"docs/t.md", [], 3, 7, "int main()"⟩ : TestCase) 0 "g++"
        ⟨true, .completed ⟨true, []⟩, .completed ⟨true, []⟩⟩ 1500000000 =
      some (.ok (.ok "Passed: docs/t.md ([] [line: 3-7], time: 500 ms)")) ∧
    subsecMillis 1500000000 = 500 ∧
    1500000000 / 1000000 = 1500 ∧ (500 : Nat) ≠ 1500 :=
  ⟨rfl, rfl, rfl, by decide⟩

/-- C10: a compile step that completes with non-zero exit and standard-error
bytes that are not valid UTF-8 (here the single byte 255) panics the job —
the `unwrap` on the UTF-8 conversion, modelled `none` — instead of
producing a failure outcome carrying the diagnostic. -/
theorem invalid_utf8_stderr_panics :
    run_one (⟨"docs/u.md", [], 0, 2, "int main()"⟩ : TestCase) 0 "g++"
        ⟨true, .completed ⟨false, [255]⟩, .completed ⟨true, []⟩⟩ 0 = none ∧
    stringFromUtf8 [255] = none :=
  ⟨rfl, rfl⟩

end SmokeTest
